import Mathlib

/-!
Verification of the BakeAOVertex ambient-occlusion baker
(src/BakeAOVertex/BakeAOVertex.js) against its specification.

The JavaScript source is shallowly embedded over exact real arithmetic:
`Vec3D`/`Vec4D` become real-coordinate structures, `Mat4D` becomes a
4x4 real matrix (point transform uses the affine convention: the last
column is the translation), and the mesh core accessors of the host
API become accessors of a `MeshCore` record.  Local variables of the
source functions are factored into named definitions (`mtA`, `mtU`, ...)
so that theorems can refer to them; the control flow is kept identical
to the source.
-/

set_option maxHeartbeats 1000000

open scoped Classical

/-- Embedding of Cheetah3D's `Vec3D`: a triple of real coordinates. -/
structure Vec3 where
  x : ℝ
  y : ℝ
  z : ℝ

/-- Embedding of Cheetah3D's `Vec4D`. -/
structure Vec4 where
  x : ℝ
  y : ℝ
  z : ℝ
  w : ℝ

namespace Vec3

/-- `Vec3D.add`. -/
def add (a b : Vec3) : Vec3 := ⟨a.x + b.x, a.y + b.y, a.z + b.z⟩

/-- `Vec3D.sub`. -/
def sub (a b : Vec3) : Vec3 := ⟨a.x - b.x, a.y - b.y, a.z - b.z⟩

/-- `Vec3D.multiply` (by a scalar). -/
def multiply (a : Vec3) (s : ℝ) : Vec3 := ⟨a.x * s, a.y * s, a.z * s⟩

/-- `Vec3D.dot`. -/
def dot (a b : Vec3) : ℝ := a.x * b.x + a.y * b.y + a.z * b.z

/-- `Vec3D.cross`. -/
def cross (a b : Vec3) : Vec3 :=
  ⟨a.y * b.z - a.z * b.y, a.z * b.x - a.x * b.z, a.x * b.y - a.y * b.x⟩

/-- `Vec3D.norm`: the Euclidean length. -/
noncomputable def norm (a : Vec3) : ℝ := Real.sqrt (a.dot a)

theorem dot_self_nonneg (a : Vec3) : 0 ≤ a.dot a := by
  simp only [dot]
  nlinarith [sq_nonneg a.x, sq_nonneg a.y, sq_nonneg a.z]

theorem norm_nonneg (a : Vec3) : 0 ≤ a.norm := Real.sqrt_nonneg _

/-- The length of a vector vanishes exactly on the zero vector. -/
theorem norm_eq_zero_iff (a : Vec3) : a.norm = 0 ↔ a = ⟨0, 0, 0⟩ := by
  constructor
  · intro h
    have hd : a.dot a ≤ 0 := by
      by_contra hpos
      push_neg at hpos
      have := Real.sqrt_pos.mpr hpos
      rw [norm] at h
      linarith
    have hd0 : a.dot a = 0 := le_antisymm hd (dot_self_nonneg a)
    simp only [dot] at hd0
    have hx : a.x = 0 := by nlinarith [sq_nonneg a.x, sq_nonneg a.y, sq_nonneg a.z]
    have hy : a.y = 0 := by nlinarith [sq_nonneg a.x, sq_nonneg a.y, sq_nonneg a.z]
    have hz : a.z = 0 := by nlinarith [sq_nonneg a.x, sq_nonneg a.y, sq_nonneg a.z]
    cases a
    simp_all
  · intro h
    subst h
    simp [norm, dot]

end Vec3

/-- Embedding of Cheetah3D's `Mat4D`. -/
abbrev Mat4 := Matrix (Fin 4) (Fin 4) ℝ

/-- `Mat4D.multiply(Vec3D)`: affine point transform (the fourth
homogeneous coordinate of the point is 1). -/
def mulPoint (M : Mat4) (p : Vec3) : Vec3 :=
  ⟨M 0 0 * p.x + M 0 1 * p.y + M 0 2 * p.z + M 0 3,
   M 1 0 * p.x + M 1 1 * p.y + M 1 2 * p.z + M 1 3,
   M 2 0 * p.x + M 2 1 * p.y + M 2 2 * p.z + M 2 3⟩

/-- The read-only geometric data of a mesh core: vertex positions,
polygons (as lists of corner vertex indices) and per-polygon face
normals (supplied by the host, as `core.normal(p)` is). -/
structure MeshGeom where
  vertices : List Vec3
  polygons : List (List ℕ)
  faceNormals : List Vec3

/-- Embedding of a Cheetah3D mesh core: geometry plus the per-corner
UV attribute written by the baker. -/
structure MeshCore where
  geom : MeshGeom
  uv : ℕ → ℕ → Vec4

namespace MeshCore

/-- `core.vertexCount()`. -/
def vertexCount (c : MeshCore) : ℕ := c.geom.vertices.length

/-- `core.vertex(i)`. -/
def vertex (c : MeshCore) (i : ℕ) : Vec3 := c.geom.vertices.getD i ⟨0, 0, 0⟩

/-- `core.polygonCount()`. -/
def polygonCount (c : MeshCore) : ℕ := c.geom.polygons.length

/-- `core.polygonSize(p)`. -/
def polygonSize (c : MeshCore) (p : ℕ) : ℕ := (c.geom.polygons.getD p []).length

/-- `core.vertexIndex(p, corner)`. -/
def vertexIndex (c : MeshCore) (p corner : ℕ) : ℕ := (c.geom.polygons.getD p []).getD corner 0

/-- `core.normal(p)`: the host-supplied face normal of polygon `p`. -/
def normal (c : MeshCore) (p : ℕ) : Vec3 := c.geom.faceNormals.getD p ⟨0, 0, 0⟩

/-- `core.setUVCoord(p, corner, val)`. -/
def setUVCoord (c : MeshCore) (p corner : ℕ) (val : Vec4) : MeshCore :=
  { c with uv := fun p' c' => if p' = p ∧ c' = corner then val else c.uv p' c' }

@[simp] theorem setUVCoord_geom (c : MeshCore) (p corner : ℕ) (val : Vec4) :
    (c.setUVCoord p corner val).geom = c.geom := rfl

end MeshCore

/-- One entry of the occluder list built by `collectAllMeshes`:
a mesh core together with its object-to-world matrix. -/
structure Occluder where
  core : MeshCore
  matrix : Mat4

/-! ### `rayTriangleIntersect` (source lines 249-283)

The local variables of the source are factored into named definitions:
`mtA` is `a = edge1 · (rayDir × edge2)`, `mtU`, `mtV`, `mtT` are the
barycentric coordinates and the hit parameter (each already multiplied
by `f = 1/a`). -/

/-- `epsilon` of `rayTriangleIntersect` (1e-6). -/
def mtEpsilon : ℝ := 0.000001

/-- `a = edge1.dot(h)` with `h = rayDir.cross(edge2)`. -/
def mtA (rayDir v0 v1 v2 : Vec3) : ℝ :=
  (v1.sub v0).dot (rayDir.cross (v2.sub v0))

/-- `u = f * s.dot(h)` with `f = 1/a`, `s = rayStart - v0`. -/
noncomputable def mtU (rayStart rayDir v0 v1 v2 : Vec3) : ℝ :=
  (1 / mtA rayDir v0 v1 v2) * ((rayStart.sub v0).dot (rayDir.cross (v2.sub v0)))

/-- `v = f * rayDir.dot(q)` with `q = s.cross(edge1)`. -/
noncomputable def mtV (rayStart rayDir v0 v1 v2 : Vec3) : ℝ :=
  (1 / mtA rayDir v0 v1 v2) * (rayDir.dot ((rayStart.sub v0).cross (v1.sub v0)))

/-- `t = f * edge2.dot(q)`. -/
noncomputable def mtT (rayStart rayDir v0 v1 v2 : Vec3) : ℝ :=
  (1 / mtA rayDir v0 v1 v2) * ((v2.sub v0).dot ((rayStart.sub v0).cross (v1.sub v0)))

/-- Embedding of `rayTriangleIntersect` (source lines 249-283),
Möller-Trumbore with the source's exact guard structure. -/
noncomputable def rayTriangleIntersect
    (rayStart rayDir : Vec3) (rayLength : ℝ) (v0 v1 v2 : Vec3) : Bool :=
  if mtA rayDir v0 v1 v2 > -mtEpsilon ∧ mtA rayDir v0 v1 v2 < mtEpsilon then
    false -- ray is parallel to triangle
  else if mtU rayStart rayDir v0 v1 v2 < 0 ∨ mtU rayStart rayDir v0 v1 v2 > 1 then
    false
  else if mtV rayStart rayDir v0 v1 v2 < 0 ∨
      mtU rayStart rayDir v0 v1 v2 + mtV rayStart rayDir v0 v1 v2 > 1 then
    false
  else if mtT rayStart rayDir v0 v1 v2 > mtEpsilon ∧
      mtT rayStart rayDir v0 v1 v2 < rayLength then
    true -- ray intersects triangle
  else
    false

/-- C1: `rayTriangleIntersect` accepts exactly when `|a| ≥ ε`, the
barycentric coordinate `u` lies in `[0,1]`, `v ≥ 0` with `u + v ≤ 1`,
and the hit parameter satisfies `ε < t < rayLength` (ε = 1e-6);
stated for rays with unit direction and positive length. -/
theorem rayTriangleIntersect_iff
    (rayStart rayDir : Vec3) (rayLength : ℝ) (v0 v1 v2 : Vec3)
    (_hdir : rayDir.norm = 1) (_hlen : 0 < rayLength) :
    rayTriangleIntersect rayStart rayDir rayLength v0 v1 v2 = true ↔
      (mtEpsilon ≤ |mtA rayDir v0 v1 v2| ∧
       (0 ≤ mtU rayStart rayDir v0 v1 v2 ∧ mtU rayStart rayDir v0 v1 v2 ≤ 1) ∧
       (0 ≤ mtV rayStart rayDir v0 v1 v2 ∧
        mtU rayStart rayDir v0 v1 v2 + mtV rayStart rayDir v0 v1 v2 ≤ 1) ∧
       (mtEpsilon < mtT rayStart rayDir v0 v1 v2 ∧
        mtT rayStart rayDir v0 v1 v2 < rayLength)) := by
  unfold rayTriangleIntersect
  set a := mtA rayDir v0 v1 v2 with ha
  set u := mtU rayStart rayDir v0 v1 v2 with hu
  set v := mtV rayStart rayDir v0 v1 v2 with hv
  set t := mtT rayStart rayDir v0 v1 v2 with ht
  split_ifs with h1 h2 h3 h4
  · simp only [Bool.false_eq_true, false_iff]
    rintro ⟨habs, -⟩
    exact absurd habs (not_le.mpr (abs_lt.mpr ⟨h1.1, h1.2⟩))
  · simp only [Bool.false_eq_true, false_iff]
    rintro ⟨-, ⟨hu0, hu1⟩, -, -⟩
    rcases h2 with h | h <;> linarith
  · simp only [Bool.false_eq_true, false_iff]
    rintro ⟨-, -, ⟨hv0, hv1⟩, -⟩
    rcases h3 with h | h <;> linarith
  · simp only [true_iff]
    push_neg at h2 h3
    refine ⟨?_, ⟨h2.1, h2.2⟩, ⟨h3.1, h3.2⟩, h4.1, h4.2⟩
    rcases not_and_or.mp h1 with h | h
    · rw [not_lt] at h
      calc mtEpsilon ≤ -a := by linarith
        _ ≤ |a| := neg_le_abs a
    · rw [not_lt] at h
      exact le_trans h (le_abs_self a)
  · simp only [Bool.false_eq_true, false_iff]
    rintro ⟨-, -, -, htl, htu⟩
    exact h4 ⟨htl, htu⟩

/-- Witness for C1 at a concrete hit: the ray from the origin along
`(0,0,1)` with length 2 hits the triangle `(0,0,1), (2,0,1), (0,2,1)`. -/
theorem rayTriangleIntersect_iff_witness :
    rayTriangleIntersect ⟨0, 0, 0⟩ ⟨0, 0, 1⟩ 2 ⟨0, 0, 1⟩ ⟨2, 0, 1⟩ ⟨0, 2, 1⟩ = true := by
  have hdir : (Vec3.mk 0 0 1).norm = 1 := by
    rw [Vec3.norm]
    rw [show (Vec3.mk 0 0 1).dot ⟨0, 0, 1⟩ = 1 by simp [Vec3.dot]]
    exact Real.sqrt_one
  refine (rayTriangleIntersect_iff ⟨0, 0, 0⟩ ⟨0, 0, 1⟩ 2 ⟨0, 0, 1⟩ ⟨2, 0, 1⟩ ⟨0, 2, 1⟩
    hdir (by norm_num)).mpr ?_
  have hA : mtA ⟨0, 0, 1⟩ ⟨0, 0, 1⟩ ⟨2, 0, 1⟩ ⟨0, 2, 1⟩ = -4 := by
    simp [mtA, Vec3.dot, Vec3.cross, Vec3.sub]; norm_num
  have hU : mtU ⟨0, 0, 0⟩ ⟨0, 0, 1⟩ ⟨0, 0, 1⟩ ⟨2, 0, 1⟩ ⟨0, 2, 1⟩ = 0 := by
    norm_num [mtU, hA, Vec3.dot, Vec3.cross, Vec3.sub]
  have hV : mtV ⟨0, 0, 0⟩ ⟨0, 0, 1⟩ ⟨0, 0, 1⟩ ⟨2, 0, 1⟩ ⟨0, 2, 1⟩ = 0 := by
    norm_num [mtV, hA, Vec3.dot, Vec3.cross, Vec3.sub]
  have hT : mtT ⟨0, 0, 0⟩ ⟨0, 0, 1⟩ ⟨0, 0, 1⟩ ⟨2, 0, 1⟩ ⟨0, 2, 1⟩ = 1 := by
    norm_num [mtT, hA, Vec3.dot, Vec3.cross, Vec3.sub]
  rw [hA, hU, hV, hT]
  norm_num [mtEpsilon]

/-! ### `rayIntersectsAnyMesh` (source lines 209-247) -/

/-- The body of the per-occluder loop of `rayIntersectsAnyMesh`
(source lines 216-244): transform the ray into the occluder's local
space, skip it if the local direction is degenerate, otherwise test
every fan triangle of every polygon. -/
noncomputable def occluderHit (rayStart rayEnd : Vec3) (mesh : Occluder) : Bool :=
  let invMatrix := mesh.matrix⁻¹
  let localStart := mulPoint invMatrix rayStart
  let localEnd := mulPoint invMatrix rayEnd
  let localDir := localEnd.sub localStart
  let localLength := localDir.norm
  if localLength = 0 then false -- `continue` in the source
  else
    let localDirN := localDir.multiply (1 / localLength)
    (List.range mesh.core.polygonCount).any fun p =>
      (List.range (mesh.core.polygonSize p - 2)).any fun t =>
        rayTriangleIntersect localStart localDirN localLength
          (mesh.core.vertex (mesh.core.vertexIndex p 0))
          (mesh.core.vertex (mesh.core.vertexIndex p (t + 1)))
          (mesh.core.vertex (mesh.core.vertexIndex p (t + 2)))

/-- Embedding of `rayIntersectsAnyMesh` (source lines 209-247).  The
source also normalises the world-space direction after the zero-length
check; that normalised vector is never used afterwards, so it is not
materialised here. -/
noncomputable def rayIntersectsAnyMesh (rayStart rayEnd : Vec3) (meshes : List Occluder) : Bool :=
  let rayLength := (rayEnd.sub rayStart).norm
  if rayLength = 0 then false
  else meshes.any (occluderHit rayStart rayEnd)

/-- A degenerate (zero edge cross product) triangle makes `a` vanish:
the scalar triple product `edge1 · (rayDir × edge2)` is a multiple of
`edge2 × edge1`. -/
theorem mtA_eq_zero_of_cross_eq_zero (rayDir v0 v1 v2 : Vec3)
    (h : (v1.sub v0).cross (v2.sub v0) = ⟨0, 0, 0⟩) :
    mtA rayDir v0 v1 v2 = 0 := by
  have h1 : (v1.sub v0).y * (v2.sub v0).z - (v1.sub v0).z * (v2.sub v0).y = 0 := by
    have := congrArg Vec3.x h; simpa [Vec3.cross] using this
  have h2 : (v1.sub v0).z * (v2.sub v0).x - (v1.sub v0).x * (v2.sub v0).z = 0 := by
    have := congrArg Vec3.y h; simpa [Vec3.cross] using this
  have h3 : (v1.sub v0).x * (v2.sub v0).y - (v1.sub v0).y * (v2.sub v0).x = 0 := by
    have := congrArg Vec3.z h; simpa [Vec3.cross] using this
  simp only [mtA, Vec3.dot, Vec3.cross]
  linear_combination (-rayDir.x) * h1 + (-rayDir.y) * h2 + (-rayDir.z) * h3

/-- C8: the intersection query degrades silently on degenerate
geometry: a zero-length world ray yields `false` immediately; an
occluder whose locally transformed ray has zero length is skipped
(contributes nothing to the query); and a triangle whose edge cross
product vanishes (three collinear vertices) is never intersected. -/
theorem rayIntersectsAnyMesh_degenerate :
    (∀ (rayStart rayEnd : Vec3) (meshes : List Occluder),
       (rayEnd.sub rayStart).norm = 0 →
       rayIntersectsAnyMesh rayStart rayEnd meshes = false) ∧
    (∀ (rayStart rayEnd : Vec3) (m : Occluder) (rest : List Occluder),
       ((mulPoint m.matrix⁻¹ rayEnd).sub (mulPoint m.matrix⁻¹ rayStart)).norm = 0 →
       rayIntersectsAnyMesh rayStart rayEnd (m :: rest) =
         rayIntersectsAnyMesh rayStart rayEnd rest) ∧
    (∀ (rayStart rayDir : Vec3) (rayLength : ℝ) (v0 v1 v2 : Vec3),
       (v1.sub v0).cross (v2.sub v0) = ⟨0, 0, 0⟩ →
       rayTriangleIntersect rayStart rayDir rayLength v0 v1 v2 = false) := by
  refine ⟨?_, ?_, ?_⟩
  · intro rayStart rayEnd meshes h
    simp only [rayIntersectsAnyMesh]
    rw [if_pos h]
  · intro rayStart rayEnd m rest h
    simp only [rayIntersectsAnyMesh]
    by_cases hw : (rayEnd.sub rayStart).norm = 0
    · rw [if_pos hw, if_pos hw]
    · rw [if_neg hw, if_neg hw, List.any_cons]
      have hm : occluderHit rayStart rayEnd m = false := by
        simp only [occluderHit]
        rw [if_pos h]
      rw [hm, Bool.false_or]
  · intro rayStart rayDir rayLength v0 v1 v2 h
    have hA := mtA_eq_zero_of_cross_eq_zero rayDir v0 v1 v2 h
    simp only [rayTriangleIntersect, hA]
    rw [if_pos (by norm_num [mtEpsilon])]

/-- Witness for C8: each degenerate case instantiated concretely — the
zero ray at the origin against the empty scene, the identity-matrix
occluder with an empty mesh for the skip case, and the triangle with
three equal vertices. -/
theorem rayIntersectsAnyMesh_degenerate_witness :
    rayIntersectsAnyMesh ⟨0, 0, 0⟩ ⟨0, 0, 0⟩ [] = false ∧
    rayIntersectsAnyMesh ⟨0, 0, 0⟩ ⟨0, 0, 0⟩
        [⟨⟨⟨[], [], []⟩, fun _ _ => ⟨0, 0, 0, 0⟩⟩, (1 : Mat4)⟩] =
      rayIntersectsAnyMesh ⟨0, 0, 0⟩ ⟨0, 0, 0⟩ [] ∧
    rayTriangleIntersect ⟨0, 0, 0⟩ ⟨0, 0, 1⟩ 1 ⟨1, 1, 1⟩ ⟨1, 1, 1⟩ ⟨1, 1, 1⟩ = false := by
  have hz : (Vec3.mk 0 0 0).norm = 0 := by
    rw [Vec3.norm]
    rw [show (Vec3.mk 0 0 0).dot ⟨0, 0, 0⟩ = 0 by simp [Vec3.dot]]
    exact Real.sqrt_zero
  have hsub : (Vec3.mk 0 0 0).sub ⟨0, 0, 0⟩ = ⟨0, 0, 0⟩ := by
    simp [Vec3.sub]
  refine ⟨?_, ?_, ?_⟩
  · exact rayIntersectsAnyMesh_degenerate.1 ⟨0, 0, 0⟩ ⟨0, 0, 0⟩ [] (by rw [hsub]; exact hz)
  · refine rayIntersectsAnyMesh_degenerate.2.1 ⟨0, 0, 0⟩ ⟨0, 0, 0⟩ _ [] ?_
    have : (mulPoint ((1 : Mat4)⁻¹) ⟨0, 0, 0⟩).sub (mulPoint ((1 : Mat4)⁻¹) ⟨0, 0, 0⟩) =
        ⟨0, 0, 0⟩ := by
      simp [Vec3.sub]
    rw [this]; exact hz
  · refine rayIntersectsAnyMesh_degenerate.2.2 ⟨0, 0, 0⟩ ⟨0, 0, 1⟩ 1 ⟨1, 1, 1⟩ ⟨1, 1, 1⟩ ⟨1, 1, 1⟩ ?_
    simp [Vec3.sub, Vec3.cross]

/-! ### `generateHemisphereSamples` (source lines 114-133)

`Math.random()` is modelled as an explicit stream `draws : ℕ → ℝ` of
uniform deviates together with a cursor `start`: the i-th loop
iteration reads `u = draws (start + 2i)` and `v = draws (start + 2i + 1)`,
exactly the two consecutive `Math.random()` calls of the source. -/

/-- One loop iteration of `generateHemisphereSamples`: the direction
built from the two uniform deviates `u`, `v`. -/
noncomputable def hemisphereSample (u v : ℝ) : Vec3 :=
  let theta := 2 * Real.pi * u   -- azimuth
  let phi := Real.arccos (Real.sqrt v)  -- elevation (hemisphere)
  ⟨Real.sin phi * Real.cos theta, Real.cos phi, Real.sin phi * Real.sin theta⟩

/-- Embedding of `generateHemisphereSamples` (source lines 114-133). -/
noncomputable def generateHemisphereSamples (count : ℕ) (draws : ℕ → ℝ) (start : ℕ) :
    List Vec3 :=
  (List.range count).map fun i =>
    hemisphereSample (draws (start + 2 * i)) (draws (start + 2 * i + 1))

/-- Every hemisphere sample is a unit vector. -/
theorem hemisphereSample_norm (u v : ℝ) : (hemisphereSample u v).norm = 1 := by
  have hdot : (hemisphereSample u v).dot (hemisphereSample u v) = 1 := by
    simp only [hemisphereSample, Vec3.dot]
    have h1 := Real.sin_sq_add_cos_sq (2 * Real.pi * u)
    have h2 := Real.sin_sq_add_cos_sq (Real.arccos (Real.sqrt v))
    nlinarith [h1, h2]
  rw [Vec3.norm, hdot]
  exact Real.sqrt_one

/-- Every hemisphere sample generated from a deviate `v ∈ [0,1)` has
non-negative `y` component: `y = cos (arccos √v) = √v ≥ 0`. -/
theorem hemisphereSample_y_nonneg (u v : ℝ) (_h0 : 0 ≤ v) (h1 : v < 1) :
    0 ≤ (hemisphereSample u v).y := by
  simp only [hemisphereSample]
  rw [Real.cos_arccos (by linarith [Real.sqrt_nonneg v]) ?hle]
  · exact Real.sqrt_nonneg v
  case hle =>
    calc Real.sqrt v ≤ Real.sqrt 1 := Real.sqrt_le_sqrt (by linarith)
      _ = 1 := Real.sqrt_one

/-- C2: for any positive count and any stream of deviates in `[0,1)`,
`generateHemisphereSamples` returns exactly `count` directions, each a
unit vector with non-negative `y` component (in the local frame). -/
theorem generateHemisphereSamples_spec (count : ℕ) (_hcount : 1 ≤ count)
    (draws : ℕ → ℝ) (start : ℕ)
    (hdraws : ∀ i, 0 ≤ draws i ∧ draws i < 1) :
    (generateHemisphereSamples count draws start).length = count ∧
    ∀ d ∈ generateHemisphereSamples count draws start, d.norm = 1 ∧ 0 ≤ d.y := by
  constructor
  · simp [generateHemisphereSamples]
  · intro d hd
    simp only [generateHemisphereSamples, List.mem_map] at hd
    obtain ⟨i, -, rfl⟩ := hd
    exact ⟨hemisphereSample_norm _ _,
      hemisphereSample_y_nonneg _ _ (hdraws _).1 (hdraws _).2⟩

/-- Witness for C2 with one sample drawn from the all-zero stream. -/
theorem generateHemisphereSamples_spec_witness :
    (generateHemisphereSamples 1 (fun _ => 0) 0).length = 1 ∧
    ∀ d ∈ generateHemisphereSamples 1 (fun _ => 0) 0, d.norm = 1 ∧ 0 ≤ d.y :=
  generateHemisphereSamples_spec 1 (by norm_num) (fun _ => 0) 0
    (fun _ => by norm_num)

/-! ### `calculateOcclusion` (source lines 168-207) and the
post-processing of `bakeMeshAO` (source lines 103-106) -/

/-- The `up` reference vector of the tangent-space basis (source lines
173-176): world-up unless the normal is nearly parallel to it. -/
noncomputable def aoUpVector (normal : Vec3) : Vec3 :=
  if |normal.dot ⟨0, 1, 0⟩| > 0.9 then ⟨1, 0, 0⟩ else ⟨0, 1, 0⟩

/-- The tangent of the basis (source lines 178-182): `normal × up`,
normalised when its length is positive. -/
noncomputable def aoTangent (normal : Vec3) : Vec3 :=
  let t := normal.cross (aoUpVector normal)
  if t.norm > 0 then t.multiply (1 / t.norm) else t

/-- The bitangent of the basis (source line 183). -/
noncomputable def aoBitangent (normal : Vec3) : Vec3 :=
  normal.cross (aoTangent normal)

/-- A sample direction rotated from the local hemisphere frame into
world space (source lines 189-193). -/
noncomputable def aoWorldDir (normal sampleDir : Vec3) : Vec3 :=
  ⟨(aoTangent normal).x * sampleDir.x + normal.x * sampleDir.y +
     (aoBitangent normal).x * sampleDir.z,
   (aoTangent normal).y * sampleDir.x + normal.y * sampleDir.y +
     (aoBitangent normal).y * sampleDir.z,
   (aoTangent normal).z * sampleDir.x + normal.z * sampleDir.y +
     (aoBitangent normal).z * sampleDir.z⟩

/-- The per-sample intersection test of the occlusion loop (source
lines 195-200): bias the ray start along the normal, extend by
`maxDistance` along the world direction, query all meshes. -/
noncomputable def aoSampleHit (worldPos normal sampleDir : Vec3)
    (allMeshes : List Occluder) (maxDistance bias : ℝ) : Bool :=
  let rayStart := worldPos.add (normal.multiply bias)
  let rayEnd := rayStart.add ((aoWorldDir normal sampleDir).multiply maxDistance)
  rayIntersectsAnyMesh rayStart rayEnd allMeshes

/-- Embedding of `calculateOcclusion` (source lines 168-207): count the
occluded sample rays, return the ambient accessibility
`1 - occluded / totalSamples`. -/
noncomputable def calculateOcclusion (worldPos normal : Vec3)
    (sampleDirections : List Vec3) (allMeshes : List Occluder)
    (maxDistance bias : ℝ) : ℝ :=
  let occluded : ℕ := sampleDirections.foldl
    (fun acc sampleDir =>
      if aoSampleHit worldPos normal sampleDir allMeshes maxDistance bias then acc + 1
      else acc) 0
  1 - ((occluded : ℝ) / (sampleDirections.length : ℝ))

/-- Embedding of the post-processing of `bakeMeshAO` (source lines
103-106): raise to the intensity exponent, then invert on request. -/
noncomputable def postProcess (occlusion intensity : ℝ) (invert : Bool) : ℝ :=
  let o := occlusion ^ intensity
  if invert then 1 - o else o

/-- The occluded-counter loop is a `countP`. -/
theorem foldl_count_eq_countP {α : Type} (p : α → Bool) (l : List α) (n : ℕ) :
    l.foldl (fun acc a => if p a then acc + 1 else acc) n = n + l.countP p := by
  induction l generalizing n with
  | nil => simp
  | cons a l ih =>
    rw [List.foldl_cons, ih, List.countP_cons]
    by_cases h : p a
    · simp [h]
      omega
    · simp [h]

/-- `calculateOcclusion` in closed form: one minus the fraction of
sample directions whose biased world ray hits some occluder. -/
theorem calculateOcclusion_eq_count (worldPos normal : Vec3)
    (sampleDirections : List Vec3) (allMeshes : List Occluder)
    (maxDistance bias : ℝ) :
    calculateOcclusion worldPos normal sampleDirections allMeshes maxDistance bias =
      1 - ((sampleDirections.countP
              (fun sampleDir => aoSampleHit worldPos normal sampleDir allMeshes
                maxDistance bias) : ℝ) /
           (sampleDirections.length : ℝ)) := by
  simp only [calculateOcclusion]
  rw [foldl_count_eq_countP]
  norm_num

/-- C5: the raw accessibility is `1 - occludedCount / N`, where
`occludedCount` counts the sample directions whose biased, rotated
world ray intersects some mesh; the post-processing is the identity at
`intensity = 1, invert = false`, inversion replaces the powered value
`o^intensity` by exactly `1 - o^intensity` (power before inversion),
and at `intensity = 2` a raw accessibility of `1/2` becomes `1/4`. -/
theorem calculateOcclusion_postProcess_spec :
    (∀ (worldPos normal : Vec3) (sampleDirections : List Vec3)
       (allMeshes : List Occluder) (maxDistance bias : ℝ),
       calculateOcclusion worldPos normal sampleDirections allMeshes maxDistance bias =
         1 - ((sampleDirections.countP
                 (fun sampleDir =>
                   rayIntersectsAnyMesh
                     (worldPos.add (normal.multiply bias))
                     ((worldPos.add (normal.multiply bias)).add
                       ((aoWorldDir normal sampleDir).multiply maxDistance))
                     allMeshes) : ℝ) /
              (sampleDirections.length : ℝ))) ∧
    (∀ o : ℝ, postProcess o 1 false = o) ∧
    (∀ o intensity : ℝ, postProcess o intensity true = 1 - o ^ intensity) ∧
    postProcess (1 / 2) 2 false = 1 / 4 := by
  refine ⟨?_, ?_, ?_, ?_⟩
  · intro worldPos normal sampleDirections allMeshes maxDistance bias
    rw [calculateOcclusion_eq_count]
    rfl
  · intro o
    simp [postProcess, Real.rpow_one]
  · intro o intensity
    simp [postProcess]
  · simp only [postProcess]
    rw [if_neg (by simp), show ((2 : ℝ)) = ((2 : ℕ) : ℝ) by norm_num, Real.rpow_natCast]
    norm_num

/-- C10: with an empty occluder list every ray query returns `false`
and the raw accessibility is exactly 1, whatever the sample count,
distance or bias. -/
theorem empty_occluders_full_accessibility :
    (∀ rayStart rayEnd : Vec3, rayIntersectsAnyMesh rayStart rayEnd [] = false) ∧
    (∀ (worldPos normal : Vec3) (sampleDirections : List Vec3) (maxDistance bias : ℝ),
       calculateOcclusion worldPos normal sampleDirections [] maxDistance bias = 1) := by
  have hray : ∀ rayStart rayEnd : Vec3, rayIntersectsAnyMesh rayStart rayEnd [] = false := by
    intro rayStart rayEnd
    simp only [rayIntersectsAnyMesh, List.any_nil]
    split <;> rfl
  refine ⟨hray, ?_⟩
  intro worldPos normal sampleDirections maxDistance bias
  rw [calculateOcclusion_eq_count]
  have hcount : sampleDirections.countP
      (fun sampleDir => aoSampleHit worldPos normal sampleDir [] maxDistance bias) = 0 := by
    apply List.countP_eq_zero.mpr
    intro d _
    simp only [aoSampleHit, hray, Bool.false_eq_true, not_false_eq_true]
  rw [hcount]
  norm_num

/-! ### `calculateVertexNormal` (source lines 135-166) -/

/-- The inner corner scan of `calculateVertexNormal` (source lines
142-150): does polygon `p` have a corner referencing `vtx`?  (The
source `break`s at the first match, so each polygon contributes at
most once.) -/
def polygonUsesVertex (core : MeshCore) (p vtx : ℕ) : Bool :=
  (List.range (core.polygonSize p)).any fun c => core.vertexIndex p c == vtx

/-- The accumulation loop of `calculateVertexNormal` (source lines
136-151): the summed face normals of the polygons incident to `vtx`
together with their count (`faceCount`). -/
def normalAccum (core : MeshCore) (vtx : ℕ) : Vec3 × ℕ :=
  (List.range core.polygonCount).foldl
    (fun acc p =>
      if polygonUsesVertex core p vtx then (acc.1.add (core.normal p), acc.2 + 1) else acc)
    (⟨0, 0, 0⟩, 0)

/-- Source lines 154-156: the averaged accumulated normal transformed
to world space as a vector (`matrix * avg - matrix * 0`).  Only
meaningful when the incident-polygon count is positive. -/
noncomputable def worldAvgNormal (core : MeshCore) (vtx : ℕ) (matrix : Mat4) : Vec3 :=
  let avg := (normalAccum core vtx).1.multiply (1 / ((normalAccum core vtx).2 : ℝ))
  (mulPoint matrix avg).sub (mulPoint matrix ⟨0, 0, 0⟩)

/-- Embedding of `calculateVertexNormal` (source lines 135-166). -/
noncomputable def calculateVertexNormal (core : MeshCore) (vtx : ℕ) (matrix : Mat4) :
    Vec3 :=
  if 0 < (normalAccum core vtx).2 then
    let world := worldAvgNormal core vtx matrix
    if world.norm > 0 then world.multiply (1 / world.norm) else world
  else
    ⟨0, 1, 0⟩ -- default up

/-- A fold keeps its initial value when the step never fires. -/
theorem foldl_accum_const (core : MeshCore) (vtx : ℕ) (l : List ℕ)
    (h : ∀ p ∈ l, polygonUsesVertex core p vtx = false) (acc : Vec3 × ℕ) :
    l.foldl
      (fun acc p =>
        if polygonUsesVertex core p vtx then (acc.1.add (core.normal p), acc.2 + 1) else acc)
      acc = acc := by
  induction l generalizing acc with
  | nil => rfl
  | cons a l ih =>
    rw [List.foldl_cons, if_neg]
    · exact ih (fun p hp => h p (List.mem_cons_of_mem a hp)) acc
    · simp [h a (List.mem_cons_self a l)]

/-- The identity transform moves no point. -/
theorem mulPoint_one (p : Vec3) : mulPoint (1 : Mat4) p = p := by
  have h : ∀ i j : Fin 4, (1 : Mat4) i j = if i = j then 1 else 0 := fun i j =>
    Matrix.one_apply
  cases p with
  | mk x y z =>
    simp only [mulPoint, h]
    norm_num [show ¬((0 : Fin 4) = 2) from by decide, show ¬((0 : Fin 4) = 3) from by decide,
      show ¬((1 : Fin 4) = 2) from by decide, show ¬((1 : Fin 4) = 3) from by decide,
      show ¬((2 : Fin 4) = 0) from by decide, show ¬((2 : Fin 4) = 1) from by decide,
      show ¬((2 : Fin 4) = 3) from by decide]

/-- C3 counterexample geometry: one vertex shared by two triangles
whose face normals cancel, so the accumulated normal is the zero
vector. -/
def cancelCore : MeshCore :=
  { geom :=
      { vertices := [⟨0, 0, 0⟩, ⟨1, 0, 0⟩, ⟨0, 1, 0⟩]
        polygons := [[0, 1, 2], [0, 1, 2]]
        faceNormals := [⟨0, 0, 1⟩, ⟨0, 0, -1⟩] }
    uv := fun _ _ => ⟨0, 0, 0, 0⟩ }

/-- The two cancelling polygons of `cancelCore` both reference
vertex 0, so the accumulated normal is the zero vector with incidence
count 2. -/
theorem cancelCore_accum : normalAccum cancelCore 0 = (⟨0, 0, 0⟩, 2) := by
  have huse0 : polygonUsesVertex cancelCore 0 0 = true := by
    simp only [polygonUsesVertex, MeshCore.polygonSize, MeshCore.vertexIndex, cancelCore]
    decide
  have huse1 : polygonUsesVertex cancelCore 1 0 = true := by
    simp only [polygonUsesVertex, MeshCore.polygonSize, MeshCore.vertexIndex, cancelCore]
    decide
  have hrange : List.range cancelCore.polygonCount = [0, 1] := rfl
  have hn0 : cancelCore.normal 0 = ⟨0, 0, 1⟩ := rfl
  have hn1 : cancelCore.normal 1 = ⟨0, 0, -1⟩ := rfl
  simp only [normalAccum]
  rw [hrange]
  simp only [List.foldl_cons, List.foldl_nil, huse0, huse1, if_true, hn0, hn1, Vec3.add]
  norm_num

/-- At `cancelCore` the averaged world-transformed normal is the zero
vector, of zero length. -/
theorem cancelCore_worldAvg : worldAvgNormal cancelCore 0 (1 : Mat4) = ⟨0, 0, 0⟩ := by
  simp only [worldAvgNormal, cancelCore_accum, Vec3.multiply]
  rw [mulPoint_one, mulPoint_one]
  simp only [Vec3.sub]
  norm_num

theorem cancelCore_worldAvg_norm : (worldAvgNormal cancelCore 0 (1 : Mat4)).norm = 0 := by
  rw [cancelCore_worldAvg]
  exact (Vec3.norm_eq_zero_iff _).mpr rfl

/-- Counterexample to C3 as stated: at `cancelCore`, vertex 0, with the
identity transform, the vertex has incident polygons, the averaged
world-transformed normal has zero length, and yet the function returns
the zero vector, not the world-up `(0,1,0)` the claim requires. -/
theorem calculateVertexNormal_zero_not_up :
    0 < (normalAccum cancelCore 0).2 ∧
    (worldAvgNormal cancelCore 0 (1 : Mat4)).norm = 0 ∧
    calculateVertexNormal cancelCore 0 (1 : Mat4) = ⟨0, 0, 0⟩ ∧
    calculateVertexNormal cancelCore 0 (1 : Mat4) ≠ ⟨0, 1, 0⟩ := by
  have hres : calculateVertexNormal cancelCore 0 (1 : Mat4) = ⟨0, 0, 0⟩ := by
    rw [calculateVertexNormal, if_pos (by rw [cancelCore_accum]; norm_num)]
    rw [if_neg (by rw [cancelCore_worldAvg_norm]; norm_num)]
    exact cancelCore_worldAvg
  refine ⟨by rw [cancelCore_accum]; norm_num, cancelCore_worldAvg_norm, hres, ?_⟩
  rw [hres]
  intro h
  have := congrArg Vec3.y h
  norm_num at this

/-- C3 amended: `calculateVertexNormal` returns world-up `(0,1,0)` when
no polygon corner references the vertex; when the vertex is referenced
but the averaged world-transformed normal has zero length it returns
that zero vector unnormalised; otherwise it returns the normalised
averaged normal. -/
theorem calculateVertexNormal_cases (core : MeshCore) (vtx : ℕ) (matrix : Mat4) :
    ((∀ p < core.polygonCount, ∀ c < core.polygonSize p, core.vertexIndex p c ≠ vtx) →
       calculateVertexNormal core vtx matrix = ⟨0, 1, 0⟩) ∧
    (0 < (normalAccum core vtx).2 → (worldAvgNormal core vtx matrix).norm = 0 →
       calculateVertexNormal core vtx matrix = ⟨0, 0, 0⟩) ∧
    (0 < (normalAccum core vtx).2 → 0 < (worldAvgNormal core vtx matrix).norm →
       calculateVertexNormal core vtx matrix =
         (worldAvgNormal core vtx matrix).multiply
           (1 / (worldAvgNormal core vtx matrix).norm)) := by
  refine ⟨?_, ?_, ?_⟩
  · intro h
    have hnone : ∀ p ∈ List.range core.polygonCount, polygonUsesVertex core p vtx = false := by
      intro p hp
      rw [List.mem_range] at hp
      simp only [polygonUsesVertex, List.any_eq_false]
      intro c hc
      rw [List.mem_range] at hc
      simp only [beq_iff_eq]
      exact h p hp c hc
    have haccum : normalAccum core vtx = (⟨0, 0, 0⟩, 0) :=
      foldl_accum_const core vtx _ hnone _
    rw [calculateVertexNormal, if_neg]
    rw [haccum]
    norm_num
  · intro hcount hnorm
    rw [calculateVertexNormal, if_pos hcount, if_neg (by rw [hnorm]; norm_num)]
    exact (Vec3.norm_eq_zero_iff _).mp hnorm
  · intro hcount hnorm
    rw [calculateVertexNormal, if_pos hcount, if_pos hnorm]

/-- Witness for the amended C3, instantiating all three cases: a core
with no polygons at all (default-up case), the cancelling core (zero
length case), and a single triangle with normal `(0,0,1)` (normalised
case). -/
def triCore : MeshCore :=
  { geom :=
      { vertices := [⟨0, 0, 0⟩, ⟨1, 0, 0⟩, ⟨0, 1, 0⟩]
        polygons := [[0, 1, 2]]
        faceNormals := [⟨0, 0, 1⟩] }
    uv := fun _ _ => ⟨0, 0, 0, 0⟩ }

/-- An empty mesh core (no polygons). -/
def emptyCore : MeshCore :=
  { geom := { vertices := [⟨0, 0, 0⟩], polygons := [], faceNormals := [] }
    uv := fun _ _ => ⟨0, 0, 0, 0⟩ }

theorem calculateVertexNormal_cases_witness :
    calculateVertexNormal emptyCore 0 (1 : Mat4) = ⟨0, 1, 0⟩ ∧
    calculateVertexNormal cancelCore 0 (1 : Mat4) = ⟨0, 0, 0⟩ ∧
    calculateVertexNormal triCore 0 (1 : Mat4) =
      (worldAvgNormal triCore 0 (1 : Mat4)).multiply
        (1 / (worldAvgNormal triCore 0 (1 : Mat4)).norm) := by
  have huse : polygonUsesVertex triCore 0 0 = true := by
    simp only [polygonUsesVertex, MeshCore.polygonSize, MeshCore.vertexIndex, triCore]
    decide
  have haccum : normalAccum triCore 0 = (⟨0, 0, 1⟩, 1) := by
    have hrange : List.range triCore.polygonCount = [0] := rfl
    have hn0 : triCore.normal 0 = ⟨0, 0, 1⟩ := rfl
    simp only [normalAccum]
    rw [hrange]
    simp only [List.foldl_cons, List.foldl_nil, huse, if_true, hn0, Vec3.add]
    norm_num
  have hworld : worldAvgNormal triCore 0 (1 : Mat4) = ⟨0, 0, 1⟩ := by
    simp only [worldAvgNormal, haccum, Vec3.multiply]
    rw [mulPoint_one, mulPoint_one]
    simp only [Vec3.sub]
    norm_num
  refine ⟨?_, ?_, ?_⟩
  · refine (calculateVertexNormal_cases emptyCore 0 (1 : Mat4)).1 ?_
    intro p hp
    have h0 : emptyCore.polygonCount = 0 := rfl
    omega
  · refine (calculateVertexNormal_cases cancelCore 0 (1 : Mat4)).2.1 ?_ ?_
    · exact calculateVertexNormal_zero_not_up.1
    · exact calculateVertexNormal_zero_not_up.2.1
  · refine (calculateVertexNormal_cases triCore 0 (1 : Mat4)).2.2 ?_ ?_
    · rw [haccum]
      norm_num
    · rw [hworld]
      rw [show (Vec3.mk 0 0 1).norm = 1 by
        rw [Vec3.norm, show (Vec3.mk 0 0 1).dot ⟨0, 0, 1⟩ = 1 by simp [Vec3.dot]]
        exact Real.sqrt_one]
      norm_num

/-! ### Per-vertex pipeline of `bakeMeshAO` (source lines 92-111) -/

/-- The scalar computed for one vertex by the loop body of
`bakeMeshAO` (source lines 92-106): world position, estimated normal,
raw occlusion, then intensity power and optional inversion. -/
noncomputable def vertexOcclusion (core : MeshCore) (meshMatrix : Mat4)
    (allMeshes : List Occluder) (sampleDirections : List Vec3)
    (maxDistance bias intensity : ℝ) (invert : Bool) (v : ℕ) : ℝ :=
  let worldVertex := mulPoint meshMatrix (core.vertex v)
  let normal := calculateVertexNormal core v meshMatrix
  let occlusion := calculateOcclusion worldVertex normal sampleDirections allMeshes
    maxDistance bias
  postProcess occlusion intensity invert

/-- The raw accessibility always lies in `[0,1]`: the occluded count
never exceeds the sample count. -/
theorem calculateOcclusion_mem_Icc (worldPos normal : Vec3)
    (sampleDirections : List Vec3) (allMeshes : List Occluder) (maxDistance bias : ℝ) :
    calculateOcclusion worldPos normal sampleDirections allMeshes maxDistance bias ∈
      Set.Icc (0 : ℝ) 1 := by
  rw [calculateOcclusion_eq_count]
  set cnt := sampleDirections.countP
    (fun sampleDir => aoSampleHit worldPos normal sampleDir allMeshes maxDistance bias)
    with hcnt
  have hcle : cnt ≤ sampleDirections.length := List.countP_le_length _
  rcases Nat.eq_zero_or_pos sampleDirections.length with hlen | hlen
  · have : cnt = 0 := by omega
    rw [this, hlen]
    norm_num
  · have hpos : (0 : ℝ) < (sampleDirections.length : ℝ) := by exact_mod_cast hlen
    constructor
    · have : (cnt : ℝ) / (sampleDirections.length : ℝ) ≤ 1 := by
        rw [div_le_one hpos]
        exact_mod_cast hcle
      linarith
    · have : 0 ≤ (cnt : ℝ) / (sampleDirections.length : ℝ) :=
        div_nonneg (by positivity) (le_of_lt hpos)
      linarith

/-- Both post-processing steps preserve `[0,1]` when the intensity
exponent is non-negative. -/
theorem postProcess_mem_Icc (o intensity : ℝ) (invert : Bool)
    (h0 : 0 ≤ o) (h1 : o ≤ 1) (hint : 0 ≤ intensity) :
    postProcess o intensity invert ∈ Set.Icc (0 : ℝ) 1 := by
  have hp0 : 0 ≤ o ^ intensity := Real.rpow_nonneg h0 intensity
  have hp1 : o ^ intensity ≤ 1 := Real.rpow_le_one h0 h1 hint
  simp only [postProcess]
  cases invert with
  | false => exact ⟨hp0, hp1⟩
  | true =>
    simp only [if_true]
    constructor <;> [linarith; linarith]

/-- C6: with a strictly positive intensity exponent, the final
occlusion scalar computed for a vertex (raw accessibility, then power,
then optional inversion) lies in `[0,1]`. -/
theorem vertexOcclusion_mem_Icc (core : MeshCore) (meshMatrix : Mat4)
    (allMeshes : List Occluder) (sampleDirections : List Vec3)
    (maxDistance bias intensity : ℝ) (invert : Bool) (v : ℕ)
    (hint : 0 < intensity) :
    vertexOcclusion core meshMatrix allMeshes sampleDirections maxDistance bias
      intensity invert v ∈ Set.Icc (0 : ℝ) 1 := by
  have hraw := calculateOcclusion_mem_Icc
    (mulPoint meshMatrix (core.vertex v)) (calculateVertexNormal core v meshMatrix)
    sampleDirections allMeshes maxDistance bias
  exact postProcess_mem_Icc _ _ _ hraw.1 hraw.2 (le_of_lt hint)

/-- Witness for C6 at a concrete configuration (empty scene, identity
transform, intensity 1). -/
theorem vertexOcclusion_mem_Icc_witness :
    vertexOcclusion emptyCore (1 : Mat4) [] [] 1 0 1 false 0 ∈ Set.Icc (0 : ℝ) 1 :=
  vertexOcclusion_mem_Icc emptyCore (1 : Mat4) [] [] 1 0 1 false 0 (by norm_num)

/-! ### `setVertexColor` (source lines 285-297) and `bakeMeshAO`
(source lines 85-112) -/

/-- The inner corner-loop step of `setVertexColor` (source lines
289-295): when corner `c` of polygon `p` references `vtx`, store
`(color.x, 0, 0, 0)` in the UV slot of that corner. -/
def svcStep (vtx : ℕ) (color : Vec4) (p : ℕ) : MeshCore → ℕ → MeshCore :=
  fun acc2 c =>
    if acc2.vertexIndex p c = vtx then acc2.setUVCoord p c ⟨color.x, 0, 0, 0⟩ else acc2

theorem svcStep_geom (vtx : ℕ) (color : Vec4) (p : ℕ) (c : MeshCore) (k : ℕ) :
    (svcStep vtx color p c k).geom = c.geom := by
  unfold svcStep
  split <;> rfl

/-- Embedding of `setVertexColor` (source lines 285-297); the source's
parameter `vertexIndex` is called `vtx` here to keep it apart from the
accessor of the same name. -/
def setVertexColor (core : MeshCore) (vtx : ℕ) (color : Vec4) : MeshCore :=
  (List.range core.polygonCount).foldl
    (fun acc p => (List.range (acc.polygonSize p)).foldl (svcStep vtx color p) acc)
    core

/-- A fold whose step preserves the geometry preserves the geometry. -/
theorem foldl_geom_eq {α : Type} (f : MeshCore → α → MeshCore)
    (hf : ∀ c a, (f c a).geom = c.geom) (l : List α) (c : MeshCore) :
    (l.foldl f c).geom = c.geom := by
  induction l generalizing c with
  | nil => rfl
  | cons a l ih => rw [List.foldl_cons, ih, hf]

theorem setVertexColor_geom (core : MeshCore) (vtx : ℕ) (color : Vec4) :
    (setVertexColor core vtx color).geom = core.geom := by
  unfold setVertexColor
  exact foldl_geom_eq _
    (fun c p => foldl_geom_eq _ (svcStep_geom vtx color p) _ c) _ core

/-- UV contents after the inner corner loop of `setVertexColor` over
corners `0 .. n-1` of polygon `p`. -/
theorem svcInner_uv (core : MeshCore) (vtx : ℕ) (color : Vec4) (p n : ℕ)
    (acc : MeshCore) (hg : acc.geom = core.geom) (p' c' : ℕ) :
    ((List.range n).foldl (svcStep vtx color p) acc).uv p' c' =
      if p' = p ∧ c' < n ∧ core.vertexIndex p c' = vtx then ⟨color.x, 0, 0, 0⟩
      else acc.uv p' c' := by
  induction n with
  | zero => simp
  | succ n ih =>
    rw [List.range_succ, List.foldl_append, List.foldl_cons, List.foldl_nil]
    have hAg : ((List.range n).foldl (svcStep vtx color p) acc).geom = core.geom :=
      (foldl_geom_eq _ (svcStep_geom vtx color p) _ acc).trans hg
    set A := (List.range n).foldl (svcStep vtx color p) acc with hA
    have hidx : A.vertexIndex p n = core.vertexIndex p n := by
      simp [MeshCore.vertexIndex, hAg]
    rw [svcStep, hidx]
    by_cases hv : core.vertexIndex p n = vtx
    · rw [if_pos hv]
      have hset : (A.setUVCoord p n ⟨color.x, 0, 0, 0⟩).uv p' c' =
          if p' = p ∧ c' = n then (⟨color.x, 0, 0, 0⟩ : Vec4) else A.uv p' c' := rfl
      rw [hset, ih]
      by_cases hp : p' = p
      · subst hp
        by_cases hc : c' = n
        · subst hc
          simp [hv]
        · rw [if_neg (by tauto)]
          have hiff : (c' < n) ↔ (c' < n + 1) := by omega
          simp only [hiff]
      · rw [if_neg (by tauto), if_neg (by tauto), if_neg (by tauto)]
    · rw [if_neg hv, ih]
      by_cases hp : p' = p
      · subst hp
        by_cases hc : c' = n
        · subst hc
          rw [if_neg (by omega), if_neg (by tauto)]
        · have hiff : (c' < n) ↔ (c' < n + 1) := by omega
          simp only [hiff]
      · rw [if_neg (by tauto), if_neg (by tauto)]

/-- UV contents after the outer polygon loop of `setVertexColor` over
polygons `0 .. m-1`. -/
theorem svcOuter_uv (core : MeshCore) (vtx : ℕ) (color : Vec4) (m : ℕ)
    (acc : MeshCore) (hg : acc.geom = core.geom) (p' c' : ℕ) :
    ((List.range m).foldl
        (fun acc p => (List.range (acc.polygonSize p)).foldl (svcStep vtx color p) acc)
        acc).uv p' c' =
      if p' < m ∧ c' < core.polygonSize p' ∧ core.vertexIndex p' c' = vtx then
        ⟨color.x, 0, 0, 0⟩
      else acc.uv p' c' := by
  induction m with
  | zero => simp
  | succ m ih =>
    rw [List.range_succ, List.foldl_append, List.foldl_cons, List.foldl_nil]
    have hAg : ((List.range m).foldl
        (fun acc p => (List.range (acc.polygonSize p)).foldl (svcStep vtx color p) acc)
        acc).geom = core.geom :=
      (foldl_geom_eq _ (fun c p => foldl_geom_eq _ (svcStep_geom vtx color p) _ c) _
        acc).trans hg
    set A := (List.range m).foldl
      (fun acc p => (List.range (acc.polygonSize p)).foldl (svcStep vtx color p) acc)
      acc with hA
    have hsize : A.polygonSize m = core.polygonSize m := by
      simp [MeshCore.polygonSize, hAg]
    rw [hsize, svcInner_uv core vtx color m (core.polygonSize m) A hAg, ih]
    by_cases hp : p' = m
    · subst hp
      by_cases hc : c' < core.polygonSize p'
      · by_cases hvv : core.vertexIndex p' c' = vtx
        · rw [if_pos ⟨rfl, hc, hvv⟩, if_pos ⟨by omega, hc, hvv⟩]
        · rw [if_neg (by tauto), if_neg (by tauto), if_neg (by tauto)]
      · rw [if_neg (by tauto), if_neg (by tauto), if_neg (by tauto)]
    · rw [if_neg (by tauto)]
      have hiff : (p' < m) ↔ (p' < m + 1) := by omega
      simp only [hiff]

/-- UV contents after `setVertexColor core vtx color`: every in-range
corner referencing `vtx` holds `(color.x, 0, 0, 0)`; every other
corner is untouched. -/
theorem setVertexColor_uv (core : MeshCore) (vtx : ℕ) (color : Vec4) (p' c' : ℕ) :
    (setVertexColor core vtx color).uv p' c' =
      if p' < core.polygonCount ∧ c' < core.polygonSize p' ∧
          core.vertexIndex p' c' = vtx then
        ⟨color.x, 0, 0, 0⟩
      else core.uv p' c' :=
  svcOuter_uv core vtx color core.polygonCount core rfl p' c'

/-- Embedding of `bakeMeshAO` (source lines 85-112): generate the
hemisphere sample set once, then for every vertex compute its
occlusion scalar and write it (as `aoColor = (occ, occ, occ, 1)`,
whose `x` component `setVertexColor` stores) to all corners
referencing the vertex. -/
noncomputable def bakeMeshAO (core : MeshCore) (meshMatrix : Mat4)
    (allMeshes : List Occluder) (sampleRays : ℕ)
    (maxDistance bias intensity : ℝ) (invert : Bool)
    (draws : ℕ → ℝ) (rng : ℕ) : MeshCore :=
  let sampleDirections := generateHemisphereSamples sampleRays draws rng
  (List.range core.vertexCount).foldl
    (fun acc v =>
      setVertexColor acc v
        ⟨vertexOcclusion acc meshMatrix allMeshes sampleDirections maxDistance bias
           intensity invert v,
         vertexOcclusion acc meshMatrix allMeshes sampleDirections maxDistance bias
           intensity invert v,
         vertexOcclusion acc meshMatrix allMeshes sampleDirections maxDistance bias
           intensity invert v,
         1⟩)
    core

/-- `vertexOcclusion` reads only the geometry of the core, never its
UV state. -/
theorem vertexOcclusion_congr (c1 c2 : MeshCore) (h : c1.geom = c2.geom)
    (meshMatrix : Mat4) (allMeshes : List Occluder) (sampleDirections : List Vec3)
    (maxDistance bias intensity : ℝ) (invert : Bool) (v : ℕ) :
    vertexOcclusion c1 meshMatrix allMeshes sampleDirections maxDistance bias
        intensity invert v =
      vertexOcclusion c2 meshMatrix allMeshes sampleDirections maxDistance bias
        intensity invert v := by
  cases c1 with
  | mk g1 u1 =>
    cases c2 with
    | mk g2 u2 =>
      simp only at h
      subst h
      rfl

/-- UV contents after the vertex loop of `bakeMeshAO` over vertices
`0 .. n-1`, for an arbitrary fixed sample direction list. -/
theorem bakeFold_uv (core : MeshCore) (meshMatrix : Mat4) (allMeshes : List Occluder)
    (dirs : List Vec3) (maxDistance bias intensity : ℝ) (invert : Bool)
    (n : ℕ) (acc : MeshCore) (hg : acc.geom = core.geom) (p c : ℕ) :
    ((List.range n).foldl
        (fun acc v =>
          setVertexColor acc v
            ⟨vertexOcclusion acc meshMatrix allMeshes dirs maxDistance bias
               intensity invert v,
             vertexOcclusion acc meshMatrix allMeshes dirs maxDistance bias
               intensity invert v,
             vertexOcclusion acc meshMatrix allMeshes dirs maxDistance bias
               intensity invert v,
             1⟩)
        acc).uv p c =
      if p < core.polygonCount ∧ c < core.polygonSize p ∧
          core.vertexIndex p c < n then
        ⟨vertexOcclusion core meshMatrix allMeshes dirs maxDistance bias intensity
           invert (core.vertexIndex p c), 0, 0, 0⟩
      else acc.uv p c := by
  induction n with
  | zero => simp
  | succ n ih =>
    rw [List.range_succ, List.foldl_append, List.foldl_cons, List.foldl_nil]
    have hBg : ((List.range n).foldl
        (fun acc v =>
          setVertexColor acc v
            ⟨vertexOcclusion acc meshMatrix allMeshes dirs maxDistance bias
               intensity invert v,
             vertexOcclusion acc meshMatrix allMeshes dirs maxDistance bias
               intensity invert v,
             vertexOcclusion acc meshMatrix allMeshes dirs maxDistance bias
               intensity invert v,
             1⟩)
        acc).geom = core.geom :=
      (foldl_geom_eq _ (fun c v => setVertexColor_geom c v _) _ acc).trans hg
    set B := (List.range n).foldl
      (fun acc v =>
        setVertexColor acc v
          ⟨vertexOcclusion acc meshMatrix allMeshes dirs maxDistance bias
             intensity invert v,
           vertexOcclusion acc meshMatrix allMeshes dirs maxDistance bias
             intensity invert v,
           vertexOcclusion acc meshMatrix allMeshes dirs maxDistance bias
             intensity invert v,
           1⟩)
      acc with hB
    have hPC : B.polygonCount = core.polygonCount := by
      simp [MeshCore.polygonCount, hBg]
    have hPS : ∀ q, B.polygonSize q = core.polygonSize q := fun q => by
      simp [MeshCore.polygonSize, hBg]
    have hVI : ∀ q k, B.vertexIndex q k = core.vertexIndex q k := fun q k => by
      simp [MeshCore.vertexIndex, hBg]
    have hVO : vertexOcclusion B meshMatrix allMeshes dirs maxDistance bias
        intensity invert n =
        vertexOcclusion core meshMatrix allMeshes dirs maxDistance bias
          intensity invert n :=
      vertexOcclusion_congr B core hBg meshMatrix allMeshes dirs maxDistance bias
        intensity invert n
    rw [setVertexColor_uv, hPC, hPS, hVI]
    have hx : (Vec4.mk
        (vertexOcclusion B meshMatrix allMeshes dirs maxDistance bias intensity invert n)
        (vertexOcclusion B meshMatrix allMeshes dirs maxDistance bias intensity invert n)
        (vertexOcclusion B meshMatrix allMeshes dirs maxDistance bias intensity invert n)
        1).x =
        vertexOcclusion B meshMatrix allMeshes dirs maxDistance bias intensity invert n :=
      rfl
    rw [hx, hVO, ih]
    by_cases hE : core.vertexIndex p c = n
    · by_cases hP : p < core.polygonCount ∧ c < core.polygonSize p
      · rw [if_pos ⟨hP.1, hP.2, hE⟩, if_pos ⟨hP.1, hP.2, by omega⟩, hE]
      · rw [if_neg (by tauto), if_neg (by tauto), if_neg (by tauto)]
    · rw [if_neg (by tauto)]
      have hiff : (core.vertexIndex p c < n) ↔ (core.vertexIndex p c < n + 1) := by
        omega
      simp only [hiff]

/-- UV contents after `bakeMeshAO`: every in-range corner holds the
occlusion scalar of the vertex it references. -/
theorem bakeMeshAO_uv (core : MeshCore) (meshMatrix : Mat4) (allMeshes : List Occluder)
    (sampleRays : ℕ) (maxDistance bias intensity : ℝ) (invert : Bool)
    (draws : ℕ → ℝ) (rng : ℕ) (p c : ℕ) :
    (bakeMeshAO core meshMatrix allMeshes sampleRays maxDistance bias intensity invert
        draws rng).uv p c =
      if p < core.polygonCount ∧ c < core.polygonSize p ∧
          core.vertexIndex p c < core.vertexCount then
        ⟨vertexOcclusion core meshMatrix allMeshes
           (generateHemisphereSamples sampleRays draws rng) maxDistance bias intensity
           invert (core.vertexIndex p c), 0, 0, 0⟩
      else core.uv p c := by
  simp only [bakeMeshAO]
  exact bakeFold_uv core meshMatrix allMeshes _ maxDistance bias intensity invert
    core.vertexCount core rfl p c

/-- C7: one scalar per vertex, replicated to all referencing corners:
a `setVertexColor` call stores `(color.x, 0, 0, 0)` at every in-range
corner referencing the vertex and leaves every corner that does not
reference it unchanged; and after `bakeMeshAO` every in-range corner
holds exactly the occlusion scalar of the single vertex it references,
with the unused components fixed at 0. -/
theorem setVertexColor_frame :
    (∀ (core : MeshCore) (vtx : ℕ) (color : Vec4) (p c : ℕ),
       p < core.polygonCount → c < core.polygonSize p → core.vertexIndex p c = vtx →
       (setVertexColor core vtx color).uv p c = ⟨color.x, 0, 0, 0⟩) ∧
    (∀ (core : MeshCore) (vtx : ℕ) (color : Vec4) (p c : ℕ),
       core.vertexIndex p c ≠ vtx →
       (setVertexColor core vtx color).uv p c = core.uv p c) ∧
    (∀ (core : MeshCore) (meshMatrix : Mat4) (allMeshes : List Occluder)
       (sampleRays : ℕ) (maxDistance bias intensity : ℝ) (invert : Bool)
       (draws : ℕ → ℝ) (rng : ℕ) (p c : ℕ),
       p < core.polygonCount → c < core.polygonSize p →
       core.vertexIndex p c < core.vertexCount →
       (bakeMeshAO core meshMatrix allMeshes sampleRays maxDistance bias intensity
           invert draws rng).uv p c =
         ⟨vertexOcclusion core meshMatrix allMeshes
            (generateHemisphereSamples sampleRays draws rng) maxDistance bias intensity
            invert (core.vertexIndex p c), 0, 0, 0⟩) := by
  refine ⟨?_, ?_, ?_⟩
  · intro core vtx color p c hp hc hv
    rw [setVertexColor_uv, if_pos ⟨hp, hc, hv⟩]
  · intro core vtx color p c hv
    rw [setVertexColor_uv, if_neg (by tauto)]
  · intro core meshMatrix allMeshes sampleRays maxDistance bias intensity invert
      draws rng p c hp hc hv
    rw [bakeMeshAO_uv, if_pos ⟨hp, hc, hv⟩]

/-- Witness for C7 on the one-triangle core: corner (0,0) references
vertex 0 and receives the scalar; with a target vertex (5) referenced
by no corner, corner (0,0) is untouched; and after a bake, corner
(0,0) holds vertex 0's occlusion scalar. -/
theorem setVertexColor_frame_witness :
    (setVertexColor triCore 0 ⟨5, 6, 7, 8⟩).uv 0 0 = ⟨5, 0, 0, 0⟩ ∧
    (setVertexColor triCore 5 ⟨5, 6, 7, 8⟩).uv 0 0 = triCore.uv 0 0 ∧
    (bakeMeshAO triCore (1 : Mat4) [] 1 1 0 1 false (fun _ => 0) 0).uv 0 0 =
      ⟨vertexOcclusion triCore (1 : Mat4) []
         (generateHemisphereSamples 1 (fun _ => 0) 0) 1 0 1 false 0, 0, 0, 0⟩ := by
  have hpc : (0 : ℕ) < triCore.polygonCount := by
    rw [show triCore.polygonCount = 1 from rfl]
    norm_num
  have hps : (0 : ℕ) < triCore.polygonSize 0 := by
    rw [show triCore.polygonSize 0 = 3 from rfl]
    norm_num
  have hvi : triCore.vertexIndex 0 0 = 0 := rfl
  refine ⟨?_, ?_, ?_⟩
  · exact setVertexColor_frame.1 triCore 0 ⟨5, 6, 7, 8⟩ 0 0 hpc hps hvi
  · exact setVertexColor_frame.2.1 triCore 5 ⟨5, 6, 7, 8⟩ 0 0 (by rw [hvi]; norm_num)
  · have h := setVertexColor_frame.2.2 triCore (1 : Mat4) [] 1 1 0 1 false (fun _ => 0) 0
      0 0 hpc hps (by rw [hvi, show triCore.vertexCount = 3 from rfl]; norm_num)
    rw [h, hvi]

/-! ### The scene walk: `processMeshesRecursively` (source lines 65-83)

Scene objects are a tree: a node is either mesh-bearing (`geom = some
core`, the NGON-family case) or not, carries its object-to-world
matrix (the host's `obj2WorldMatrix()`), and has children.  The
ambient `Math.random()` stream is threaded through the walk as the
cursor `rng` into the `draws` stream: each `bakeMeshAO` call consumes
`2 * sampleRays` deviates (two per sample ray). -/

mutual
inductive Obj where
  | node (geom : Option MeshCore) (matrix : Mat4) (children : ObjList)
inductive ObjList where
  | nil
  | cons (o : Obj) (rest : ObjList)
end

mutual
/-- Embedding of `processMeshesRecursively` (source lines 65-83):
bake the node's mesh if it has one with vertices, then recurse into
the children, threading the random cursor and the processed count. -/
noncomputable def processObj (o : Obj) (allMeshes : List Occluder) (sampleRays : ℕ)
    (maxDistance bias intensity : ℝ) (invert : Bool) (draws : ℕ → ℝ)
    (rng count : ℕ) : Obj × ℕ × ℕ :=
  match o with
  | .node geom matrix children =>
    let step : Option MeshCore × ℕ × ℕ :=
      match geom with
      | some core =>
        if 0 < core.vertexCount then
          (some (bakeMeshAO core matrix allMeshes sampleRays maxDistance bias intensity
             invert draws rng), rng + 2 * sampleRays, count + 1)
        else (some core, rng, count)
      | none => (none, rng, count)
    let rest := processList children allMeshes sampleRays maxDistance bias intensity
      invert draws step.2.1 step.2.2
    (.node step.1 matrix rest.1, rest.2)

/-- The child loop of `processMeshesRecursively` (source lines 78-80). -/
noncomputable def processList (l : ObjList) (allMeshes : List Occluder) (sampleRays : ℕ)
    (maxDistance bias intensity : ℝ) (invert : Bool) (draws : ℕ → ℝ)
    (rng count : ℕ) : ObjList × ℕ × ℕ :=
  match l with
  | .nil => (.nil, rng, count)
  | .cons o rest =>
    let r1 := processObj o allMeshes sampleRays maxDistance bias intensity invert
      draws rng count
    let r2 := processList rest allMeshes sampleRays maxDistance bias intensity invert
      draws r1.2.1 r1.2.2
    (.cons r1.1 r2.1, r2.2)
end

mutual
/-- The number of mesh-bearing nodes with vertices in a subtree: the
nodes for which `processMeshesRecursively` calls `bakeMeshAO`. -/
def meshCountObj : Obj → ℕ
  | .node geom _ children =>
    (match geom with
     | some core => if 0 < core.vertexCount then 1 else 0
     | none => 0) + meshCountList children

def meshCountList : ObjList → ℕ
  | .nil => 0
  | .cons o rest => meshCountObj o + meshCountList rest
end

mutual
/-- The walk advances the random cursor by exactly `2 * sampleRays`
per processed mesh and the counter by one per processed mesh. -/
theorem processObj_rng (o : Obj) (allMeshes : List Occluder) (sampleRays : ℕ)
    (maxDistance bias intensity : ℝ) (invert : Bool) (draws : ℕ → ℝ)
    (rng count : ℕ) :
    (processObj o allMeshes sampleRays maxDistance bias intensity invert draws
        rng count).2.1 = rng + 2 * sampleRays * meshCountObj o ∧
    (processObj o allMeshes sampleRays maxDistance bias intensity invert draws
        rng count).2.2 = count + meshCountObj o :=
  match o with
  | .node geom matrix children => by
    cases geom with
    | none =>
      have h := processList_rng children allMeshes sampleRays maxDistance bias
        intensity invert draws rng count
      simp only [processObj, meshCountObj]
      rw [h.1, h.2]
      constructor <;> ring
    | some core =>
      by_cases hv : 0 < core.vertexCount
      · have h := processList_rng children allMeshes sampleRays maxDistance bias
          intensity invert draws (rng + 2 * sampleRays) (count + 1)
        simp only [processObj, meshCountObj, if_pos hv]
        rw [h.1, h.2]
        constructor <;> ring
      · have h := processList_rng children allMeshes sampleRays maxDistance bias
          intensity invert draws rng count
        simp only [processObj, meshCountObj, if_neg hv]
        rw [h.1, h.2]
        constructor <;> ring

theorem processList_rng (l : ObjList) (allMeshes : List Occluder) (sampleRays : ℕ)
    (maxDistance bias intensity : ℝ) (invert : Bool) (draws : ℕ → ℝ)
    (rng count : ℕ) :
    (processList l allMeshes sampleRays maxDistance bias intensity invert draws
        rng count).2.1 = rng + 2 * sampleRays * meshCountList l ∧
    (processList l allMeshes sampleRays maxDistance bias intensity invert draws
        rng count).2.2 = count + meshCountList l :=
  match l with
  | .nil => by
    simp only [processList, meshCountList]
    omega
  | .cons o rest => by
    have h1 := processObj_rng o allMeshes sampleRays maxDistance bias intensity
      invert draws rng count
    have h2 := processList_rng rest allMeshes sampleRays maxDistance bias intensity
      invert draws
      (processObj o allMeshes sampleRays maxDistance bias intensity invert draws
        rng count).2.1
      (processObj o allMeshes sampleRays maxDistance bias intensity invert draws
        rng count).2.2
    simp only [processList, meshCountList]
    rw [h2.1, h2.2, h1.1, h1.2]
    constructor <;> ring
end

/-- Replacing the accumulator by the original core in the per-vertex
occlusion computation does not change the bake fold: the writes touch
only UV state, which the occlusion computation never reads. -/
theorem bakeFold_congr_core (core : MeshCore) (meshMatrix : Mat4)
    (allMeshes : List Occluder) (dirs : List Vec3)
    (maxDistance bias intensity : ℝ) (invert : Bool) (l : List ℕ) (acc : MeshCore)
    (hg : acc.geom = core.geom) :
    l.foldl
      (fun acc v =>
        setVertexColor acc v
          ⟨vertexOcclusion acc meshMatrix allMeshes dirs maxDistance bias intensity
             invert v,
           vertexOcclusion acc meshMatrix allMeshes dirs maxDistance bias intensity
             invert v,
           vertexOcclusion acc meshMatrix allMeshes dirs maxDistance bias intensity
             invert v,
           1⟩)
      acc =
    l.foldl
      (fun acc v =>
        setVertexColor acc v
          ⟨vertexOcclusion core meshMatrix allMeshes dirs maxDistance bias intensity
             invert v,
           vertexOcclusion core meshMatrix allMeshes dirs maxDistance bias intensity
             invert v,
           vertexOcclusion core meshMatrix allMeshes dirs maxDistance bias intensity
             invert v,
           1⟩)
      acc := by
  induction l generalizing acc with
  | nil => simp only [List.foldl_nil]
  | cons a l ih =>
    rw [List.foldl_cons, List.foldl_cons]
    have hstep :
        setVertexColor acc a
          ⟨vertexOcclusion acc meshMatrix allMeshes dirs maxDistance bias intensity
             invert a,
           vertexOcclusion acc meshMatrix allMeshes dirs maxDistance bias intensity
             invert a,
           vertexOcclusion acc meshMatrix allMeshes dirs maxDistance bias intensity
             invert a,
           1⟩ =
        setVertexColor acc a
          ⟨vertexOcclusion core meshMatrix allMeshes dirs maxDistance bias intensity
             invert a,
           vertexOcclusion core meshMatrix allMeshes dirs maxDistance bias intensity
             invert a,
           vertexOcclusion core meshMatrix allMeshes dirs maxDistance bias intensity
             invert a,
           1⟩ := by
      rw [vertexOcclusion_congr acc core hg meshMatrix allMeshes dirs maxDistance bias
        intensity invert a]
    rw [hstep]
    exact ih _ ((setVertexColor_geom acc a _).trans hg)

/-- C4 (amended): within one bake invocation the hemisphere sample set
is generated exactly once per processed mesh — the random cursor
advances by `2 * sampleRays` deviates per mesh (never per vertex) —
and within each `bakeMeshAO` call the single set generated at cursor
`rng` is reused for every vertex of that mesh. -/
theorem samples_generated_once_per_mesh :
    (∀ (o : Obj) (allMeshes : List Occluder) (sampleRays : ℕ)
       (maxDistance bias intensity : ℝ) (invert : Bool) (draws : ℕ → ℝ)
       (rng count : ℕ),
       (processObj o allMeshes sampleRays maxDistance bias intensity invert draws
           rng count).2.1 = rng + 2 * sampleRays * meshCountObj o ∧
       (processObj o allMeshes sampleRays maxDistance bias intensity invert draws
           rng count).2.2 = count + meshCountObj o) ∧
    (∀ (core : MeshCore) (meshMatrix : Mat4) (allMeshes : List Occluder)
       (sampleRays : ℕ) (maxDistance bias intensity : ℝ) (invert : Bool)
       (draws : ℕ → ℝ) (rng : ℕ),
       bakeMeshAO core meshMatrix allMeshes sampleRays maxDistance bias intensity
           invert draws rng =
         (List.range core.vertexCount).foldl
           (fun acc v =>
             setVertexColor acc v
               ⟨vertexOcclusion core meshMatrix allMeshes
                  (generateHemisphereSamples sampleRays draws rng) maxDistance bias
                  intensity invert v,
                vertexOcclusion core meshMatrix allMeshes
                  (generateHemisphereSamples sampleRays draws rng) maxDistance bias
                  intensity invert v,
                vertexOcclusion core meshMatrix allMeshes
                  (generateHemisphereSamples sampleRays draws rng) maxDistance bias
                  intensity invert v,
                1⟩)
           core) := by
  constructor
  · intro o allMeshes sampleRays maxDistance bias intensity invert draws rng count
    exact processObj_rng o allMeshes sampleRays maxDistance bias intensity invert
      draws rng count
  · intro core meshMatrix allMeshes sampleRays maxDistance bias intensity invert
      draws rng
    simp only [bakeMeshAO]
    exact bakeFold_congr_core core meshMatrix allMeshes _ maxDistance bias intensity
      invert _ core rfl

/-- The random stream of the C4 counterexample: the first mesh's two
deviates are 0, the second mesh's are 1/4. -/
noncomputable def exDraws : ℕ → ℝ := fun k => if k < 2 then 0 else 1 / 4

/-- Counterexample to C4 as stated: in a single bake over a parent
with two one-vertex meshes (sampleRays = 1), the first mesh's
`bakeMeshAO` runs at random cursor 0 and the second at cursor 2, and
the hemisphere sample sequences generated at those two cursors differ
— the direction set is not one identical sequence reused for every
vertex of every mesh of the bake. -/
theorem samples_not_shared_across_meshes :
    processObj
        (Obj.node none 1 (.cons (Obj.node (some emptyCore) 1 .nil)
          (.cons (Obj.node (some emptyCore) 1 .nil) .nil)))
        [] 1 1 0 1 false exDraws 0 0 =
      (Obj.node none 1
        (.cons (Obj.node (some (bakeMeshAO emptyCore 1 [] 1 1 0 1 false exDraws 0)) 1 .nil)
          (.cons (Obj.node (some (bakeMeshAO emptyCore 1 [] 1 1 0 1 false exDraws 2)) 1
            .nil) .nil)),
       4, 2) ∧
    generateHemisphereSamples 1 exDraws 0 ≠ generateHemisphereSamples 1 exDraws 2 := by
  have hv : 0 < emptyCore.vertexCount := by
    rw [show emptyCore.vertexCount = 1 from rfl]
    norm_num
  constructor
  · norm_num only [processObj, processList, hv, if_true, ite_true]
  · have hr : List.range 1 = [0] := rfl
    have e1 : generateHemisphereSamples 1 exDraws 0 =
        [hemisphereSample 0 0] := by
      simp only [generateHemisphereSamples, hr, List.map_cons, List.map_nil]
      norm_num [exDraws]
    have e2 : generateHemisphereSamples 1 exDraws 2 =
        [hemisphereSample (1 / 4) (1 / 4)] := by
      simp only [generateHemisphereSamples, hr, List.map_cons, List.map_nil]
      norm_num [exDraws]
    have hy1 : (hemisphereSample 0 0).y = 0 := by
      simp only [hemisphereSample]
      rw [Real.sqrt_zero, Real.cos_arccos (by norm_num) (by norm_num)]
    have hy2 : (hemisphereSample (1 / 4) (1 / 4)).y = 1 / 2 := by
      simp only [hemisphereSample]
      rw [show (1 / 4 : ℝ) = (1 / 2) ^ 2 by norm_num, Real.sqrt_sq (by norm_num),
        Real.cos_arccos (by norm_num) (by norm_num)]
    rw [e1, e2]
    intro h
    injection h with h1 _
    have := congrArg Vec3.y h1
    rw [hy1, hy2] at this
    norm_num at this

/-! ### `collectAllMeshes` (source lines 47-63) and
`bakeAmbientOcclusion` (source lines 16-45)

The document holds the scene root and the current selection.  The
selection is modelled as a path of child indices from the root, so
that `doc.selectedObject()` returning null is `none` and the bake's
write-back into the scene tree is an update along that path. -/

mutual
/-- Embedding of `collectAllMeshes` (source lines 47-63): collect, in
preorder, every mesh-bearing node with vertices together with its
object-to-world matrix. -/
def collectAllMeshes : Obj → List Occluder
  | .node geom matrix children =>
    (match geom with
     | some core => if 0 < core.vertexCount then [⟨core, matrix⟩] else []
     | none => []) ++ collectAllMeshesList children

/-- The child loop of `collectAllMeshes` (source lines 60-62). -/
def collectAllMeshesList : ObjList → List Occluder
  | .nil => []
  | .cons o rest => collectAllMeshes o ++ collectAllMeshesList rest
end

/-- `obj.childAtIndex(i)`. -/
def childAt : ObjList → ℕ → Option Obj
  | .nil, _ => none
  | .cons o _, 0 => some o
  | .cons _ rest, n + 1 => childAt rest n

/-- Resolve a path of child indices to an object of the tree. -/
def objAtPath : List ℕ → Obj → Option Obj
  | [], o => some o
  | i :: rest, .node _ _ children =>
    match childAt children i with
    | none => none
    | some c => objAtPath rest c

/-- Replace the child at an index. -/
def setChildAt : ObjList → ℕ → Obj → ObjList
  | .nil, _, _ => .nil
  | .cons _ rest, 0, x => .cons x rest
  | .cons o rest, n + 1, x => .cons o (setChildAt rest n x)

/-- Replace the object at a path of child indices. -/
def updatePath : List ℕ → Obj → Obj → Obj
  | [], _, newObj => newObj
  | i :: rest, .node geom matrix children, newObj =>
    .node geom matrix
      (match childAt children i with
       | none => children
       | some c => setChildAt children i (updatePath rest c newObj))

/-- The document state the baker touches: the scene root and the
current selection (a path of child indices, `none` when nothing is
selected). -/
structure Doc where
  root : Obj
  selectedPath : Option (List ℕ)

/-- `doc.selectedObject()`: `none` models the null result. -/
def selectedObject (doc : Doc) : Option Obj :=
  doc.selectedPath.bind (fun path => objAtPath path doc.root)

/-- Embedding of `bakeAmbientOcclusion` (source lines 16-45).  The
returned flag records whether the missing-selection error was shown
(`OS.messageBox`) and the bake aborted; otherwise the occluder list is
collected from the whole scene and the selected subtree is processed
and written back. -/
noncomputable def bakeAmbientOcclusion (doc : Doc) (sampleRays : ℕ)
    (maxDistance bias intensity : ℝ) (invert : Bool) (draws : ℕ → ℝ) : Doc × Bool :=
  match doc.selectedPath with
  | none => (doc, true)
  | some path =>
    match objAtPath path doc.root with
    | none => (doc, true)
    | some sel =>
      let allMeshes := collectAllMeshes doc.root
      let r := processObj sel allMeshes sampleRays maxDistance bias intensity invert
        draws 0 0
      ({ root := updatePath path doc.root r.1, selectedPath := doc.selectedPath },
       false)

/-- C9: when no object is selected, `bakeAmbientOcclusion` reports the
error and returns the document unchanged — no occluder collection, no
vertex computation and no attribute write happen. -/
theorem bakeAmbientOcclusion_no_selection (doc : Doc) (sampleRays : ℕ)
    (maxDistance bias intensity : ℝ) (invert : Bool) (draws : ℕ → ℝ)
    (h : selectedObject doc = none) :
    bakeAmbientOcclusion doc sampleRays maxDistance bias intensity invert draws =
      (doc, true) := by
  cases hp : doc.selectedPath with
  | none => simp only [bakeAmbientOcclusion, hp]
  | some path =>
    have h2 : objAtPath path doc.root = none := by
      simpa [selectedObject, hp] using h
    simp only [bakeAmbientOcclusion, hp, h2]

/-- A document with nothing selected. -/
def exDoc : Doc := { root := Obj.node none 1 .nil, selectedPath := none }

/-- Witness for C9 on a concrete unselected document. -/
theorem bakeAmbientOcclusion_no_selection_witness :
    bakeAmbientOcclusion exDoc 1 1 0 1 false (fun _ => 0) = (exDoc, true) :=
  bakeAmbientOcclusion_no_selection exDoc 1 1 0 1 false (fun _ => 0) rfl
